import Mathlib

/-!
Shallow embedding of `pedis-core` (`src/lib.rs`): the RESP-style protocol
decoder (`RedisCommand::params`, `RedisCommand::name`) and the typed store
engine (`RedisStore::set`, `RedisStore::get`, `StoreError`, `Value`,
`ValueKind`), together with theorems settling the specification claims.

Strings are modelled as `List Char`; `Vec<u8>` as `List Nat`; a Rust panic
(out-of-bounds index / slice) as `Option.none` of an `Option`-returning
variant of the function; `Result<T, StoreError>` as `Except StoreError T`.
-/

namespace PedisCore

/-- Carriage-return character of the protocol delimiter. -/
def CR : Char := '\r'

/-- Line-feed character of the protocol delimiter. -/
def LF : Char := '\n'

/-- The two-character delimiter `"\r\n"` as a character list. -/
def CRLF : List Char := [CR, LF]

/-- Prepend a character to the first segment of a split result (the
rebuilding step of a left-to-right splitter when the current position does
not start a delimiter occurrence). -/
def consHead (c : Char) : List (List Char) → List (List Char)
  | [] => [[c]]
  | s :: ss => (c :: s) :: ss

/-- Model of Rust `str::split("\r\n")`: scan left to right; each
non-overlapping occurrence of `"\r\n"` ends the current segment. Splitting
the empty string yields one empty segment, exactly as in Rust. -/
def splitCRLF : List Char → List (List Char)
  | [] => [[]]
  | [c] => [[c]]
  | c :: d :: rest =>
    if c = CR ∧ d = LF then [] :: splitCRLF rest
    else consHead c (splitCRLF (d :: rest))

/-- Encapsulates a redis command (struct `RedisCommand`); the field `cmd`
is the raw frame. -/
structure RedisCommand where
  cmd : List Char

/-- The `enumerate` loop body of `RedisCommand::params`: walk the segments
with a running index `idx`; `continue` at `idx.rem_euclid(2) == 0`, push
the segment otherwise. -/
def paramsLoop : Nat → List (List Char) → List (List Char)
  | _, [] => []
  | idx, pat :: rest =>
    if idx % 2 = 0 then paramsLoop (idx + 1) rest
    else pat :: paramsLoop (idx + 1) rest

/-- `RedisCommand::params`: split the frame on `"\r\n"`, drop the first
segment (`elems[1..]`), and run the enumerate loop over the remainder. -/
def RedisCommand.params (c : RedisCommand) : List (List Char) :=
  paramsLoop 0 ((splitCRLF c.cmd).drop 1)

/-- `RedisCommand::params` with the bounds check of the slice `elems[1..]`
made explicit: the slice panics unless `1 ≤ elems.len()`; `none` models
that panic. -/
def RedisCommand.paramsRun (c : RedisCommand) : Option (List (List Char)) :=
  if 1 ≤ (splitCRLF c.cmd).length then
    some (paramsLoop 0 ((splitCRLF c.cmd).drop 1))
  else none

/-- `RedisCommand::name`: `self.params()[0].clone().to_lowercase()`. The
index `[0]` panics when `params` is empty; `none` models that panic.
Lowercasing is modelled per character by `Char.toLower`. -/
def RedisCommand.name (c : RedisCommand) : Option (List Char) :=
  match c.params with
  | [] => none
  | a :: _ => some (a.map Char.toLower)

/-- Decimal digit character for `d < 10` (`d = 9` covers the final case). -/
def digitChar : Nat → Char
  | 0 => '0'
  | 1 => '1'
  | 2 => '2'
  | 3 => '3'
  | 4 => '4'
  | 5 => '5'
  | 6 => '6'
  | 7 => '7'
  | 8 => '8'
  | _ => '9'

/-- Decimal digits of a natural number, most significant first. -/
def natDigits (n : Nat) : List Char :=
  if n < 10 then [digitChar n]
  else natDigits (n / 10) ++ [digitChar (n % 10)]
  termination_by n
  decreasing_by exact Nat.div_lt_self (by omega) (by omega)

/-- One bulk string of the wire format: `$len\r\n<payload>\r\n` with `len`
the payload length. -/
def encodeBulk (p : List Char) : List Char :=
  ('$' :: natDigits p.length) ++ CRLF ++ p ++ CRLF

/-- A valid frame `*N\r\n($len\r\n<payload>\r\n){N}` with `N` the number
of payloads. -/
def encodeFrame (ps : List (List Char)) : List Char :=
  ('*' :: natDigits ps.length) ++ CRLF ++ (ps.map encodeBulk).flatten

/-- The interleaved segment list `$len₁, p₁, $len₂, p₂, …` that splitting
the body of a valid frame produces (proof helper). -/
def bulkSegs : List (List Char) → List (List Char)
  | [] => []
  | p :: tl => ('$' :: natDigits p.length) :: p :: bulkSegs tl

/-- Enum `ValueKind`: the kind of values in the pedis store. -/
inductive ValueKind
  /-- Used when storing simple strings -/
  | String
  /-- Used when storing data as a map -/
  | Map
  /-- Used when storing json -/
  | Json
  /-- Used when storing lists -/
  | List
deriving DecidableEq

/-- `impl Display for ValueKind` (named `kindDisplay` because a
declaration under the `ValueKind` namespace would capture the name
`String`). -/
def kindDisplay : ValueKind → String
  | .Map => "map"
  | .Json => "json"
  | .List => "list"
  | .String => "string"

/-- Struct `Value`: a kind tag and the data as bytes (`Vec<u8>` modelled
as `List Nat`). -/
structure Value where
  /-- The kind of data stored in this value -/
  kind : ValueKind
  /-- The data as an array of bytes -/
  data : List Nat
deriving DecidableEq

/-- `Value::new_string`. -/
def Value.new_string (data : List Nat) : Value :=
  { kind := ValueKind.String, data := data }

/-- `Value::new_map`. -/
def Value.new_map (data : List Nat) : Value :=
  { kind := ValueKind.Map, data := data }

/-- Enum `StoreError`. -/
inductive StoreError
  /-- Error returned when a key was not found on the store -/
  | KeyNotFoundError
  /-- Error raised when trying to access a key but the kind of data does
  not match -/
  | KeyMismatchError (m : String)
deriving DecidableEq

/-- `impl Display for StoreError`: `-ERR key not found`, or `-ERR ` plus
the mismatch message. -/
def StoreError.display : StoreError → String
  | .KeyNotFoundError => "-ERR key not found"
  | .KeyMismatchError m => "-ERR " ++ m

/-- Struct `RedisStore`: its `HashMap<String, Value>` field is modelled as
an association list in which an insert replaces any entry with the same
key, so each key occurs at most once. -/
structure RedisStore where
  store : List (String × Value)

/-- `RedisStore::default()`: the empty map. -/
def RedisStore.empty : RedisStore := ⟨[]⟩

/-- `RedisStore::set`: `self.store.insert(k, v); Ok(())`. State passing is
explicit: the result is the returned `Result` together with the updated
store. `HashMap::insert` is modelled by removing any entry keyed `k` and
prepending `(k, v)`. -/
def RedisStore.set (s : RedisStore) (k : String) (v : Value) :
    Except StoreError Unit × RedisStore :=
  (Except.ok (), ⟨(k, v) :: s.store.filter (fun p => p.1 != k)⟩)

/-- `RedisStore::get`: look `k` up; if present with the requested kind
return the value, if present with another kind fail with
`KeyMismatchError("key xxx does not match yyy")`, otherwise fail with
`KeyNotFoundError`. -/
def RedisStore.get (s : RedisStore) (k : String) (vk : ValueKind) :
    Except StoreError Value :=
  match s.store.lookup k with
  | some value =>
    if value.kind = vk then Except.ok value
    else Except.error (StoreError.KeyMismatchError "key xxx does not match yyy")
  | none => Except.error StoreError.KeyNotFoundError

/-- Run a sequence of `set` operations against the default (empty) store:
the stores reachable through the public interface. -/
def applySets (ops : List (String × Value)) : RedisStore :=
  ops.foldl (fun s op => (RedisStore.set s op.1 op.2).2) RedisStore.empty

/-- The claim-C2 decode rule taken verbatim from the spec's words: drop
the first segment, then keep the segments whose 0-indexed position within
the remainder is even, in order. -/
def specParamsEven (cmd : List Char) : List (List Char) :=
  ((((splitCRLF cmd).drop 1).enum).filter (fun p => p.1 % 2 == 0)).map Prod.snd

/-- The claim-C2 decode rule with odd and even exchanged (the amended
claim): drop the first segment, then keep the segments whose 0-indexed
position within the remainder is odd, in order. -/
def specParamsOdd (cmd : List Char) : List (List Char) :=
  ((((splitCRLF cmd).drop 1).enum).filter (fun p => p.1 % 2 == 1)).map Prod.snd

/-! Helper lemmas about the splitter and the decode loop. -/

theorem consHead_ne_nil (c : Char) (ss : List (List Char)) : consHead c ss ≠ [] := by
  cases ss <;> simp [consHead]

theorem splitCRLF_ne_nil (l : List Char) : splitCRLF l ≠ [] := by
  match l with
  | [] => simp [splitCRLF]
  | [c] => simp [splitCRLF]
  | c :: d :: rest =>
    rw [splitCRLF]
    split
    · simp
    · exact consHead_ne_nil _ _

theorem digitChar_ne_CR (d : Nat) : digitChar d ≠ CR := by
  unfold digitChar
  split <;> decide

theorem CR_not_mem_natDigits (n : Nat) : CR ∉ natDigits n := by
  induction n using Nat.strong_induction_on with
  | _ n ih =>
    rw [natDigits]
    split
    · simp
      exact fun h => digitChar_ne_CR n h.symm
    · rename_i hge
      simp [List.mem_append]
      refine ⟨ih (n / 10) (Nat.div_lt_self (by omega) (by omega)), ?_⟩
      exact fun h => digitChar_ne_CR (n % 10) h.symm

theorem not_infix_CRLF_of_CR_not_mem (l : List Char) (h : CR ∉ l) :
    ¬ [CR, LF] <:+: l :=
  fun hinf => h (hinf.subset (by simp))

theorem not_infix_CRLF_header (c : Char) (hc : c ≠ CR) (n : Nat) :
    ¬ [CR, LF] <:+: (c :: natDigits n) := by
  apply not_infix_CRLF_of_CR_not_mem
  simp
  exact ⟨fun h => hc h.symm, CR_not_mem_natDigits n⟩

theorem splitCRLF_append (p : List Char) (rest : List Char)
    (h : ¬ [CR, LF] <:+: p) :
    splitCRLF (p ++ CR :: LF :: rest) = p :: splitCRLF rest := by
  induction p with
  | nil =>
    simp only [List.nil_append]
    rw [splitCRLF]
    simp
  | cons c p' ih =>
    match p' with
    | [] =>
      simp only [List.cons_append, List.nil_append]
      rw [splitCRLF]
      rw [if_neg (by rintro ⟨_, h2⟩; exact absurd h2 (by decide))]
      rw [splitCRLF]
      rw [if_pos ⟨rfl, rfl⟩]
      simp [consHead]
    | q :: p'' =>
      simp only [List.cons_append]
      rw [splitCRLF]
      rw [if_neg ?hcq]
      case hcq =>
        rintro ⟨h1, h2⟩
        subst h1; subst h2
        exact h ⟨[], p'', by simp⟩
      have h' : ¬ [CR, LF] <:+: (q :: p'') := fun hq => h (List.infix_cons hq)
      simp only [List.cons_append] at ih
      rw [ih h']
      simp [consHead]

theorem splitCRLF_bulkBody (ps : List (List Char))
    (h : ∀ p ∈ ps, ¬ [CR, LF] <:+: p) :
    splitCRLF ((ps.map encodeBulk).flatten) = bulkSegs ps ++ [[]] := by
  induction ps with
  | nil =>
    rw [bulkSegs]
    simp [splitCRLF]
  | cons p tl ih =>
    have hbody : (((p :: tl).map encodeBulk).flatten)
        = ('$' :: natDigits p.length) ++ CR :: LF :: (p ++ CR :: LF :: ((tl.map encodeBulk).flatten)) := by
      simp [encodeBulk, CRLF]
    rw [hbody]
    rw [splitCRLF_append _ _ (not_infix_CRLF_header '$' (by decide) p.length)]
    rw [splitCRLF_append _ _ (h p (by simp))]
    rw [ih (fun q hq => h q (by simp [hq]))]
    rw [bulkSegs]
    simp

theorem paramsLoop_bulkSegs (ps : List (List Char)) :
    ∀ idx, idx % 2 = 0 → paramsLoop idx (bulkSegs ps ++ [[]]) = ps := by
  induction ps with
  | nil =>
    intro idx h
    rw [bulkSegs]
    simp only [List.nil_append]
    rw [paramsLoop, if_pos h, paramsLoop]
  | cons p tl ih =>
    intro idx h
    rw [bulkSegs]
    simp only [List.cons_append]
    rw [paramsLoop, if_pos h, paramsLoop, if_neg (by omega)]
    rw [ih (idx + 1 + 1) (by omega)]

theorem enumFrom_filter_odd_eq_paramsLoop (l : List (List Char)) :
    ∀ n, ((List.enumFrom n l).filter (fun p => p.1 % 2 == 1)).map Prod.snd
      = paramsLoop n l := by
  induction l with
  | nil => intro n; simp [paramsLoop]
  | cons a l ih =>
    intro n
    rw [List.enumFrom_cons, List.filter_cons]
    rcases Nat.mod_two_eq_zero_or_one n with h | h
    · have hc : (((n, a).1 % 2 == 1) : Bool) = false := by simp [h]
      rw [hc]
      rw [if_neg (by decide)]
      rw [paramsLoop, if_pos h]
      exact ih (n + 1)
    · have hc : (((n, a).1 % 2 == 1) : Bool) = true := by simp [h]
      rw [hc]
      rw [if_pos rfl]
      rw [List.map_cons]
      rw [paramsLoop, if_neg (by rw [h]; decide)]
      rw [ih (n + 1)]

/-- Claim C1: for every valid frame of the form
`*N\r\n($len\r\n<payload>\r\n){N}` whose payloads do not contain the
`\r\n` delimiter, `RedisCommand::params` yields exactly the `N` payloads,
in their original order (stated as equality of the decoded list with the
payload list). -/
theorem params_decodes_valid_frame (ps : List (List Char))
    (h : ∀ p ∈ ps, ¬ [CR, LF] <:+: p) :
    (RedisCommand.mk (encodeFrame ps)).params = ps := by
  unfold RedisCommand.params encodeFrame
  rw [show ('*' :: natDigits ps.length) ++ CRLF ++ (ps.map encodeBulk).flatten
      = ('*' :: natDigits ps.length) ++ CR :: LF :: (ps.map encodeBulk).flatten by
    simp [CRLF]]
  rw [splitCRLF_append _ _ (not_infix_CRLF_header '*' (by decide) ps.length)]
  rw [List.drop_one, List.tail_cons]
  rw [splitCRLF_bulkBody ps h]
  exact paramsLoop_bulkSegs ps 0 rfl

/-- Witness for C1: the round trip holds at the concrete frame
`*3\r\n$3\r\nSET\r\n$3\r\nkey\r\n$11\r\nHello World\r\n`. -/
theorem params_decodes_valid_frame_witness :
    (∀ p ∈ [['S','E','T'], ['k','e','y'],
        ['H','e','l','l','o',' ','W','o','r','l','d']], ¬ [CR, LF] <:+: p)
    ∧ (RedisCommand.mk (encodeFrame [['S','E','T'], ['k','e','y'],
        ['H','e','l','l','o',' ','W','o','r','l','d']])).params
      = [['S','E','T'], ['k','e','y'],
        ['H','e','l','l','o',' ','W','o','r','l','d']] :=
  ⟨by decide, params_decodes_valid_frame _ (by decide)⟩

/-- Claim C2, counterexample: on the frame
`*3\r\n$3\r\nSET\r\n$3\r\nkey\r\n$11\r\nHello World\r\n`, keeping the
even-indexed segments of the remainder (the claim's rule) yields the
length headers `["$3", "$3", "$11", ""]`, not the arguments that
`RedisCommand::params` produces. -/
theorem params_ne_even_rule :
    specParamsEven ("*3\r\n$3\r\nSET\r\n$3\r\nkey\r\n$11\r\nHello World\r\n".toList)
      = [['$','3'], ['$','3'], ['$','1','1'], []]
    ∧ (RedisCommand.mk ("*3\r\n$3\r\nSET\r\n$3\r\nkey\r\n$11\r\nHello World\r\n".toList)).params
      = [['S','E','T'], ['k','e','y'], ['H','e','l','l','o',' ','W','o','r','l','d']]
    ∧ (RedisCommand.mk ("*3\r\n$3\r\nSET\r\n$3\r\nkey\r\n$11\r\nHello World\r\n".toList)).params
      ≠ specParamsEven ("*3\r\n$3\r\nSET\r\n$3\r\nkey\r\n$11\r\nHello World\r\n".toList) := by
  refine ⟨by decide, by decide, by decide⟩

/-- Claim C2 as amended: the decoder splits on `\r\n`, discards the first
segment, and within the remaining segments (0-indexed) discards every
EVEN-indexed segment as a per-argument length header and appends every
ODD-indexed segment, in order, to the argument list. -/
theorem params_eq_odd_rule (cmd : List Char) :
    (RedisCommand.mk cmd).params = specParamsOdd cmd := by
  unfold RedisCommand.params specParamsOdd
  rw [List.drop_one]
  rw [show ((splitCRLF cmd).tail).enum = List.enumFrom 0 ((splitCRLF cmd).tail) from rfl]
  exact (enumFrom_filter_odd_eq_paramsLoop _ 0).symm

/-- Claim C3: whenever the frame decodes to at least one argument,
`RedisCommand::name` returns the first decoded argument converted to
lowercase (and in particular does not panic). -/
theorem name_is_first_param_lowercased (c : RedisCommand)
    (a : List Char) (tl : List (List Char)) (h : c.params = a :: tl) :
    c.name = some (a.map Char.toLower) := by
  unfold RedisCommand.name
  rw [h]

/-- Witness for C3: on the concrete frame
`*3\r\n$3\r\nSET\r\n$3\r\nkey\r\n$11\r\nHello World\r\n` the name is
`some "set"`. -/
theorem name_is_first_param_lowercased_witness :
    (RedisCommand.mk ("*3\r\n$3\r\nSET\r\n$3\r\nkey\r\n$11\r\nHello World\r\n".toList)).params
      = [['S','E','T'], ['k','e','y'], ['H','e','l','l','o',' ','W','o','r','l','d']]
    ∧ (RedisCommand.mk ("*3\r\n$3\r\nSET\r\n$3\r\nkey\r\n$11\r\nHello World\r\n".toList)).name
      = some (['S','E','T'].map Char.toLower) :=
  ⟨by decide,
    name_is_first_param_lowercased _ ['S','E','T']
      [['k','e','y'], ['H','e','l','l','o',' ','W','o','r','l','d']] (by decide)⟩

/-- Claim C4, code evaluation: on the empty frame and on the
zero-argument frame `*0\r\n`, `RedisCommand::params` returns no
arguments, and `RedisCommand::name` hits the out-of-bounds index
`params()[0]` (modelled by `none`) instead of returning an explicit
decode error: the code panics where the claim requires a typed failure. -/
theorem name_panics_on_empty_or_zero_args :
    (RedisCommand.mk []).params = []
    ∧ (RedisCommand.mk []).name = none
    ∧ (RedisCommand.mk ("*0\r\n".toList)).params = []
    ∧ (RedisCommand.mk ("*0\r\n".toList)).name = none := by
  refine ⟨by decide, by decide, by decide, by decide⟩

/-- Claim C10: `RedisCommand::params` is total. The explicit bounds check
of the slice `elems[1..]` always passes, because splitting any string
yields at least one segment, so the run of `params` never panics and
returns the (possibly empty) argument list. -/
theorem params_total (cmd : List Char) :
    (RedisCommand.mk cmd).paramsRun = some ((RedisCommand.mk cmd).params) := by
  unfold RedisCommand.paramsRun RedisCommand.params
  have h : 1 ≤ (splitCRLF (RedisCommand.mk cmd).cmd).length :=
    List.length_pos.mpr (splitCRLF_ne_nil _)
  rw [if_pos h]

/-! Helper lemmas about the store. -/

theorem lookup_set_self (s : RedisStore) (k : String) (v : Value) :
    ((RedisStore.set s k v).2).store.lookup k = some v := by
  simp [RedisStore.set, List.lookup]

theorem lookup_eq_none_of_keys_ne (l : List (String × Value)) (k : String)
    (h : ∀ p ∈ l, p.1 ≠ k) : l.lookup k = none := by
  induction l with
  | nil => rfl
  | cons p tl ih =>
    obtain ⟨k', v'⟩ := p
    have hb : (k == k') = false :=
      beq_false_of_ne (fun he => (h (k', v') (by simp)) he.symm)
    rw [List.lookup, hb]
    exact ih (fun q hq => h q (by simp [hq]))

theorem keys_foldl_set_ne (k : String) (ops : List (String × Value)) :
    ∀ s : RedisStore, (∀ op ∈ ops, op.1 ≠ k) → (∀ p ∈ s.store, p.1 ≠ k) →
    ∀ p ∈ (ops.foldl (fun s op => (RedisStore.set s op.1 op.2).2) s).store,
      p.1 ≠ k := by
  induction ops with
  | nil =>
    intro s _ hs
    simpa using hs
  | cons op tl ih =>
    intro s hops hs
    rw [List.foldl_cons]
    apply ih _ (fun q hq => hops q (by simp [hq]))
    intro p hp
    simp only [RedisStore.set, List.mem_cons] at hp
    rcases hp with rfl | hp
    · exact hops op (by simp)
    · exact hs p (List.mem_of_mem_filter hp)

theorem nodup_keys_set (s : RedisStore) (k : String) (v : Value)
    (h : (s.store.map Prod.fst).Nodup) :
    ((((RedisStore.set s k v).2).store).map Prod.fst).Nodup := by
  simp only [RedisStore.set, List.map_cons, List.nodup_cons]
  constructor
  · intro hmem
    simp only [List.mem_map] at hmem
    obtain ⟨p, hp, hpk⟩ := hmem
    have := List.of_mem_filter hp
    simp [hpk] at this
  · exact h.sublist ((List.filter_sublist _).map _)

theorem nodup_keys_foldl_set (ops : List (String × Value)) :
    ∀ s : RedisStore, (s.store.map Prod.fst).Nodup →
    (((ops.foldl (fun s op => (RedisStore.set s op.1 op.2).2) s).store).map
      Prod.fst).Nodup := by
  induction ops with
  | nil => intro s hs; simpa using hs
  | cons op tl ih =>
    intro s hs
    rw [List.foldl_cons]
    exact ih _ (nodup_keys_set s op.1 op.2 hs)

/-- Claim C5: on the default store, `set(k, v)` followed by
`get(k, v.kind)` succeeds and returns a view equal to `v` (stated for an
arbitrary starting store, which covers the default one). -/
theorem set_then_get_same_kind (s : RedisStore) (k : String) (v : Value) :
    ((RedisStore.set s k v).2).get k v.kind = Except.ok v := by
  unfold RedisStore.get
  rw [lookup_set_self]
  simp

/-- Claim C6, code evaluation: after `set("key:001", Value::new_string(…))`,
a `get("key:001", Map)` fails with `KeyMismatchError`, but the rendered
message is the fixed placeholder `-ERR key xxx does not match yyy`: it
names neither the requested key `key:001` nor the expected kind `map` nor
the actual kind `string`, against the claim's requirement. -/
theorem mismatch_message_is_placeholder :
    ((RedisStore.set RedisStore.empty "key:001" (Value.new_string [104])).2).get
        "key:001" ValueKind.Map
      = Except.error (StoreError.KeyMismatchError "key xxx does not match yyy")
    ∧ StoreError.display (StoreError.KeyMismatchError "key xxx does not match yyy")
      = "-ERR key xxx does not match yyy"
    ∧ ¬ ("key:001".toList <:+: "-ERR key xxx does not match yyy".toList)
    ∧ ¬ ((kindDisplay ValueKind.Map).toList <:+: "-ERR key xxx does not match yyy".toList)
    ∧ ¬ ((kindDisplay ValueKind.String).toList <:+: "-ERR key xxx does not match yyy".toList) := by
  refine ⟨rfl, rfl, by decide, by decide, by decide⟩

/-- Claim C7: a `get` of a key that no sequence of `set` operations from
the default store ever touched fails with `KeyNotFoundError`, which
renders to the client as `-ERR key not found`. -/
theorem get_never_set_key (ops : List (String × Value)) (k : String)
    (vk : ValueKind) (h : ∀ op ∈ ops, op.1 ≠ k) :
    (applySets ops).get k vk = Except.error StoreError.KeyNotFoundError
    ∧ StoreError.display StoreError.KeyNotFoundError = "-ERR key not found" := by
  refine ⟨?_, rfl⟩
  unfold RedisStore.get applySets
  rw [lookup_eq_none_of_keys_ne _ _
    (keys_foldl_set_ne k ops RedisStore.empty h (by simp [RedisStore.empty]))]

/-- Witness for C7: with only `key:001` ever set, `get("key:013", String)`
fails with `KeyNotFoundError` and its rendering. -/
theorem get_never_set_key_witness :
    (∀ op ∈ [("key:001", Value.new_string [104])], op.1 ≠ "key:013")
    ∧ ((applySets [("key:001", Value.new_string [104])]).get "key:013" ValueKind.String
        = Except.error StoreError.KeyNotFoundError
      ∧ StoreError.display StoreError.KeyNotFoundError = "-ERR key not found") :=
  ⟨by decide, get_never_set_key _ _ _ (by decide)⟩

/-- Claim C8: `set` is a total replacement. `set(k, v1); set(k, v2);
get(k, v2.kind)` returns `v2` (so never `v1` when they differ), and every
store reachable from the default one by `set` operations holds at most
one value per key (its key list has no duplicates). -/
theorem set_replaces_and_keys_unique (s : RedisStore) (k : String)
    (v1 v2 : Value) (ops : List (String × Value)) :
    ((((RedisStore.set s k v1).2).set k v2).2).get k v2.kind = Except.ok v2
    ∧ (((applySets ops).store).map Prod.fst).Nodup := by
  constructor
  · unfold RedisStore.get
    rw [lookup_set_self]
    simp
  · exact nodup_keys_foldl_set ops RedisStore.empty (by simp [RedisStore.empty])

/-- Claim C9: `RedisStore::set` always succeeds: its returned `Result` is
`Ok(())` for every store, key and value. -/
theorem set_always_ok (s : RedisStore) (k : String) (v : Value) :
    (RedisStore.set s k v).1 = Except.ok () := rfl

end PedisCore
